import Mathlib

/-!
Verification of the position / paper-trade lifecycle engine of the
polymarket-trading repository (src/position_tracker.py, src/paper_trader.py,
src/trading_bot.py, src/btc_15min_bot.py).

Python dicts are embedded as association lists in insertion order; Python
floats are embedded as rationals (so "within tolerance 1e-9" statements are
settled exactly); Python ints as Int; wall-clock instants as opaque strings
supplied by the caller (the code only ever formats them into keys and
record fields, never compares them).
-/

namespace Polymarket

/-- Lookup in a Python-dict-like association list: first entry whose key
matches (keys are unique by construction, as in a dict). -/
def lookupKey {α : Type} : List (String × α) → String → Option α
  | [], _ => none
  | (k', v) :: rest, k => if k' = k then some v else lookupKey rest k

/-- In-place value replacement at a key, preserving entry order, as Python
dict assignment does for an existing key. -/
def updateKey {α : Type} (m : List (String × α)) (k : String) (v : α) :
    List (String × α) :=
  m.map (fun kv => if kv.1 = k then (k, v) else kv)

/-- Deletion of a key, as Python `del d[k]`. -/
def eraseKey {α : Type} (m : List (String × α)) (k : String) :
    List (String × α) :=
  m.filter (fun kv => decide (kv.1 ≠ k))

/-- Python dict assignment `d[k] = v`: replace in place if the key exists,
else append at the end (insertion order). -/
def dictSet {α : Type} (m : List (String × α)) (k : String) (v : α) :
    List (String × α) :=
  if (lookupKey m k).isSome then updateKey m k v else m ++ [(k, v)]

/-- Position dataclass of src/position_tracker.py. -/
structure Position where
  strategy_name : String
  market_id : String
  question : String
  side : String
  shares : Int
  entry_price : ℚ
  entry_time : String
  market_close_time : String
deriving DecidableEq

/-- In-memory state of PositionTracker: `self.positions`, a dict from the
composite key string to a Position. -/
abbrev PosMap := List (String × Position)

/-- Composite key f-string of PositionTracker: strategy:market:side. -/
def positionKey (strategy_name market_id side : String) : String :=
  strategy_name ++ ":" ++ market_id ++ ":" ++ side

/-- PositionTracker.add_position (src/position_tracker.py lines 45-90).
The wall-clock instant datetime.utcnow().isoformat() is passed in as
`entry_time`; persistence (save_positions) is I/O only and does not
change the in-memory dict, so it is omitted. -/
def addPosition (positions : PosMap) (strategy_name market_id question side : String)
    (shares : Int) (entry_price : ℚ) (entry_time market_close_time : String) :
    PosMap :=
  match lookupKey positions (positionKey strategy_name market_id side) with
  | some existing =>
      if existing.shares + shares = 0 then
        eraseKey positions (positionKey strategy_name market_id side)
      else
        updateKey positions (positionKey strategy_name market_id side)
          { existing with
              shares := existing.shares + shares,
              entry_price :=
                ((existing.shares : ℚ) * existing.entry_price +
                    (shares : ℚ) * entry_price) /
                  ((existing.shares + shares : Int) : ℚ) }
  | none =>
      dictSet positions (positionKey strategy_name market_id side)
        { strategy_name := strategy_name
          market_id := market_id
          question := question
          side := side
          shares := shares
          entry_price := entry_price
          entry_time := entry_time
          market_close_time := market_close_time }

/-- PositionTracker.get_position. -/
def getPosition (positions : PosMap) (strategy_name market_id side : String) :
    Option Position :=
  lookupKey positions (positionKey strategy_name market_id side)

/-- PositionTracker.get_strategy_positions: all dict values whose
strategy_name matches. -/
def getStrategyPositions (positions : PosMap) (strategy_name : String) :
    List Position :=
  (positions.map Prod.snd).filter (fun p => decide (p.strategy_name = strategy_name))

/-- PositionTracker.get_total_exposure: sum of |shares * entry_price|. -/
def getTotalExposure (positions : PosMap) : ℚ :=
  ((positions.map Prod.snd).map (fun p => |(p.shares : ℚ) * p.entry_price|)).sum

/-- PaperTrade dataclass of src/paper_trader.py. -/
structure PaperTrade where
  trade_id : String
  market_id : String
  question : String
  side : String
  amount : Int
  entry_price : ℚ
  entry_time : String
  reason : String
  volume : ℚ
  market_end_date : String
  resolved : Bool := false
  resolution_outcome : Option String := none
  exit_price : Option ℚ := none
  profit_loss : Option ℚ := none
deriving DecidableEq

/-- PaperTrade.calculate_pnl: returns the mutated record together with the
returned profit. -/
def calculatePnl (t : PaperTrade) (winning_side : String) : PaperTrade × ℚ :=
  let cost := t.entry_price * (t.amount : ℚ)
  let profit := if t.side = winning_side then 1 * (t.amount : ℚ) - cost else -cost
  let exit_price : ℚ := if t.side = winning_side then 1 else 0
  ({ t with profit_loss := some profit, exit_price := some exit_price }, profit)

/-- In-memory state of PaperTradingTracker: `self.trades`. -/
abbrev TradeMap := List (String × PaperTrade)

/-- Trade dataclass of src/strategies/base_strategy.py. -/
structure Trade where
  market_id : String
  question : String
  side : String
  amount : Int
  price : ℚ
  reason : String
  action : String := "BUY"
deriving DecidableEq

/-- Trade id f-string of PaperTradingTracker.add_trade:
market_id:side:utcnow-isoformat. -/
def paperTradeId (market_id side now : String) : String :=
  market_id ++ ":" ++ side ++ ":" ++ now

/-- PaperTradingTracker.add_trade (src/paper_trader.py lines 60-94); `now`
is the instant datetime.utcnow().isoformat() observed at the call. -/
def addTrade (trades : TradeMap) (trade : Trade) (market_end_date : String)
    (volume : ℚ) (now : String) : TradeMap × String :=
  let trade_id := paperTradeId trade.market_id trade.side now
  let paper_trade : PaperTrade :=
    { trade_id := trade_id
      market_id := trade.market_id
      question := trade.question
      side := trade.side
      amount := trade.amount
      entry_price := trade.price
      entry_time := now
      reason := trade.reason
      volume := volume
      market_end_date := market_end_date }
  (dictSet trades trade_id paper_trade, trade_id)

/-- PaperTradingTracker.resolve_trade (src/paper_trader.py lines 96-117):
no-op when the id is unknown or the trade is already resolved, otherwise
sets resolved / resolution_outcome and stores the computed P&L. -/
def resolveTrade (trades : TradeMap) (trade_id winning_side : String) : TradeMap :=
  match lookupKey trades trade_id with
  | none => trades
  | some trade =>
      if trade.resolved then trades
      else
        let t1 := { trade with resolved := true,
                               resolution_outcome := some winning_side }
        updateKey trades trade_id (calculatePnl t1 winning_side).1

/-- Python truthiness of the Optional[float] field profit_loss: falsy when
None and when exactly 0.0. -/
def optTruthy (x : Option ℚ) : Bool :=
  match x with
  | none => false
  | some v => if v = 0 then false else true

/-- Filter `t.profit_loss and t.profit_loss > 0` of get_stats. -/
def isWinningTrade (t : PaperTrade) : Bool :=
  optTruthy t.profit_loss && decide ((t.profit_loss.getD 0) > 0)

/-- Filter `t.profit_loss and t.profit_loss <= 0` of get_stats. -/
def isLosingTrade (t : PaperTrade) : Bool :=
  optTruthy t.profit_loss && decide ((t.profit_loss.getD 0) ≤ 0)

/-- Resolved trades, as filtered in get_stats. -/
def resolvedTrades (trades : TradeMap) : List PaperTrade :=
  (trades.map Prod.snd).filter (fun t => t.resolved)

/-- Pending trades, as filtered in get_stats and get_pending_trades. -/
def pendingTrades (trades : TradeMap) : List PaperTrade :=
  (trades.map Prod.snd).filter (fun t => !t.resolved)

/-- Winning trades, as filtered in get_stats. -/
def winningTrades (trades : TradeMap) : List PaperTrade :=
  (resolvedTrades trades).filter isWinningTrade

/-- Losing trades, as filtered in get_stats. -/
def losingTrades (trades : TradeMap) : List PaperTrade :=
  (resolvedTrades trades).filter isLosingTrade

/-- Result record of PaperTradingTracker.get_stats. -/
structure Stats where
  total_trades : Nat
  resolved_trades : Nat
  pending_trades : Nat
  winning_trades : Nat
  losing_trades : Nat
  win_rate : ℚ
  total_profit : ℚ
  total_invested : ℚ
  roi : ℚ
deriving DecidableEq

/-- PaperTradingTracker.get_stats (src/paper_trader.py lines 119-143).
`sum(t.profit_loss for t in resolved_trades if t.profit_loss)` filters by
Python truthiness before summing; win_rate falls back to 0 on an empty
resolved list, roi to 0 unless total_invested > 0. -/
def getStats (trades : TradeMap) : Stats :=
  let vals := trades.map Prod.snd
  let resolved := resolvedTrades trades
  let pending := pendingTrades trades
  let winning := winningTrades trades
  let losing := losingTrades trades
  let total_profit :=
    ((resolved.filter (fun t => optTruthy t.profit_loss)).map
      (fun t => t.profit_loss.getD 0)).sum
  let total_invested := (vals.map (fun t => t.entry_price * (t.amount : ℚ))).sum
  { total_trades := vals.length
    resolved_trades := resolved.length
    pending_trades := pending.length
    winning_trades := winning.length
    losing_trades := losing.length
    win_rate :=
      if resolved.length = 0 then 0
      else (winning.length : ℚ) / (resolved.length : ℚ) * 100
    total_profit := total_profit
    total_invested := total_invested
    roi :=
      if total_invested > 0 then total_profit / total_invested * 100 else 0 }

/-- Market dataclass of src/strategies/base_strategy.py (the orderbook
enrichment field is never read by the orchestration paths under proof and
is omitted). -/
structure Market where
  id : String
  question : String
  end_date : String
  yes_price : ℚ
  no_price : ℚ
  volume : ℚ
  active : Bool
deriving DecidableEq

/-- TradeSignal dataclass of src/strategies/base_strategy.py. -/
structure TradeSignal where
  trade : Trade
  market : Market
deriving DecidableEq

/-- Combined view of the two persisted ledgers of the process (the
positions file owned by PositionTracker and the paper-trades file owned by
PaperTradingTracker). Each orchestrator instantiates only one of the two
trackers, so its cycle leaves the other component untouched. -/
structure Ledgers where
  positions : PosMap
  paper_trades : TradeMap
deriving DecidableEq

/-! Embedding of BTC15MinBot.run_once (src/btc_15min_bot.py lines 138-229).
A strategy's analyze is a function of the markets and the positions handed
to it; a raised exception is an `Except.error`. client.execute_trade never
raises and is modelled by the oracle `execOk`. -/

/-- Strategy object as BTC15MinBot consumes it: name, enabled flag, and
analyze(markets, positions) which may raise. -/
structure BtcStrategy where
  name : String
  enabled : Bool
  analyze : List Market → List Position → Except String (List TradeSignal)

/-- Trade execution of one validated signal (src/btc_15min_bot.py lines
183-226): dry run updates the position tracker directly; live mode calls
client.execute_trade and updates the tracker only on success. For SELL the
tracker receives negative shares. -/
def btcExecute (dryRun : Bool) (execOk : Trade → Bool) (now : String)
    (strategyName : String) (positions : PosMap) (count : Nat)
    (t : Trade) (m : Market) : PosMap × Nat :=
  if dryRun then
    (addPosition positions strategyName t.market_id t.question t.side
      (if t.action = "BUY" then t.amount else -t.amount)
      t.price now m.end_date, count + 1)
  else if execOk t then
    (addPosition positions strategyName t.market_id t.question t.side
      (if t.action = "BUY" then t.amount else -t.amount)
      t.price now m.end_date, count + 1)
  else
    (positions, count)

/-- Validation and dispatch of one signal (src/btc_15min_bot.py lines
150-226): a BUY is skipped when a position already exists for
(strategy, market.id, trade.side); a SELL is skipped when none exists and
its amount is clamped to the position's shares when it exceeds them. -/
def btcProcessSignal (dryRun : Bool) (execOk : Trade → Bool) (now : String)
    (strategyName : String) (st : PosMap × Nat) (sig : TradeSignal) :
    PosMap × Nat :=
  let positions := st.1
  let count := st.2
  let t := sig.trade
  let m := sig.market
  if t.action = "BUY" then
    match getPosition positions strategyName m.id t.side with
    | some _ => (positions, count)
    | none => btcExecute dryRun execOk now strategyName positions count t m
  else if t.action = "SELL" then
    match getPosition positions strategyName m.id t.side with
    | none => (positions, count)
    | some existing =>
        let amt := if t.amount > existing.shares then existing.shares else t.amount
        btcExecute dryRun execOk now strategyName positions count
          { t with amount := amt } m
  else
    btcExecute dryRun execOk now strategyName positions count t m

/-- One strategy's slice of the cycle: skipped when disabled; its analyze
receives exactly this strategy's positions (get_strategy_positions); a
raised exception leaves the state untouched and the loop continues. -/
def btcRunStrategy (dryRun : Bool) (execOk : Trade → Bool) (now : String)
    (markets : List Market) (st : PosMap × Nat) (s : BtcStrategy) :
    PosMap × Nat :=
  if s.enabled then
    match s.analyze markets (getStrategyPositions st.1 s.name) with
    | Except.error _ => st
    | Except.ok signals =>
        signals.foldl (btcProcessSignal dryRun execOk now s.name) st
  else st

/-- The strategy loop of BTC15MinBot.run_once over the fetched markets,
starting from the tracker state with this cycle's executed count at 0. -/
def btcRunCycle (dryRun : Bool) (execOk : Trade → Bool) (now : String)
    (markets : List Market) (positions : PosMap)
    (strategies : List BtcStrategy) : PosMap × Nat :=
  strategies.foldl (btcRunStrategy dryRun execOk now markets) (positions, 0)

/-- Dispatch of one validated signal viewed on both persisted ledgers:
BTC15MinBot constructs no PaperTradingTracker, so the paper-trade ledger
is never written by any of its code paths. -/
def btcProcessSignalLedgers (dryRun : Bool) (execOk : Trade → Bool)
    (now : String) (strategyName : String) (st : Ledgers × Nat)
    (sig : TradeSignal) : Ledgers × Nat :=
  let next := btcProcessSignal dryRun execOk now strategyName
    (st.1.positions, st.2) sig
  ({ positions := next.1, paper_trades := st.1.paper_trades }, next.2)

/-! Embedding of TradingBot.run_once (src/trading_bot.py lines 54-127).
TradingBot constructs no PositionTracker, so the positions ledger is never
written by any of its code paths; it is carried in the state to express
that. The wall clock is a counter rendered into the timestamp strings the
code embeds in trade ids. -/

/-- Strategy object as TradingBot consumes it: analyze is called with the
markets only (src/trading_bot.py line 82 passes no positions). -/
structure TbStrategy where
  name : String
  enabled : Bool
  analyze : List Market → Except String (List TradeSignal)

/-- Process-lifetime state of a TradingBot in dry-run or live mode:
the cumulative executed_trades set, the paper ledger of its
PaperTradingTracker, the (never written) positions ledger, the cumulative
executed count and the clock. -/
structure TbState where
  executed_trades : List String
  paper_trades : TradeMap
  positions : PosMap
  count : Nat
  clock : Nat
deriving DecidableEq

/-- Fresh state at process start with empty persisted files. -/
def tbInit : TbState :=
  { executed_trades := [], paper_trades := [], positions := [],
    count := 0, clock := 0 }

/-- Dedup key f-string of TradingBot.run_once line 94:
market_id:side:amount. -/
def tradeKey (t : Trade) : String :=
  t.market_id ++ ":" ++ t.side ++ ":" ++ toString t.amount

/-- One signal of the execution loop of TradingBot.run_once (lines 89-118),
also reporting whether the signal was executed (counted): skipped when its
key is already in executed_trades; in dry run the paper ledger records it;
in live mode client.execute_trade decides; the key joins executed_trades
exactly when the signal is counted. -/
def tbStep (dryRun : Bool) (execOk : Trade → Bool) (st : TbState)
    (sig : TradeSignal) : TbState × Bool :=
  let t := sig.trade
  let key := tradeKey t
  if key ∈ st.executed_trades then (st, false)
  else if dryRun then
    ({ st with paper_trades :=
                 (addTrade st.paper_trades t sig.market.end_date
                   sig.market.volume (toString st.clock)).1,
               executed_trades := st.executed_trades ++ [key],
               count := st.count + 1,
               clock := st.clock + 1 }, true)
  else if execOk t then
    ({ st with executed_trades := st.executed_trades ++ [key],
               count := st.count + 1,
               clock := st.clock + 1 }, true)
  else
    ({ st with clock := st.clock + 1 }, false)

/-- State after one signal of the TradingBot execution loop. -/
def tbProcessSignal (dryRun : Bool) (execOk : Trade → Bool) (st : TbState)
    (sig : TradeSignal) : TbState :=
  (tbStep dryRun execOk st sig).1

/-- Signal collection of TradingBot.run_once lines 72-85: enabled
strategies are run in order over the same markets, a raised exception is
caught and contributes no signals. -/
def tbCollectSignals (strategies : List TbStrategy) (markets : List Market) :
    List TradeSignal :=
  strategies.foldl
    (fun acc s =>
      if s.enabled then
        match s.analyze markets with
        | Except.error _ => acc
        | Except.ok signals => acc ++ signals
      else acc)
    []

/-- The execution loop of TradingBot.run_once over a list of signals. -/
def tbRun (dryRun : Bool) (execOk : Trade → Bool) (st : TbState)
    (sigs : List TradeSignal) : TbState :=
  sigs.foldl (tbProcessSignal dryRun execOk) st

/-- The (market_id, side, amount) triples of the signals actually executed
along a run, in order. -/
def tbExecTriples (dryRun : Bool) (execOk : Trade → Bool) (st : TbState) :
    List TradeSignal → List (String × String × Int)
  | [] => []
  | sig :: rest =>
      (if (tbStep dryRun execOk st sig).2 then
        [(sig.trade.market_id, sig.trade.side, sig.trade.amount)]
       else []) ++
        tbExecTriples dryRun execOk (tbStep dryRun execOk st sig).1 rest

/-! Concrete fixtures used by witnesses and counterexamples. -/

/-- Fixture market. -/
def exMarket : Market :=
  { id := "m", question := "q", end_date := "e", yes_price := 1/2,
    no_price := 1/2, volume := 100, active := true }

/-- Fixture BUY intent of 10 shares at 1/2. -/
def exBuy10 : Trade :=
  { market_id := "m", question := "q", side := "UP", amount := 10,
    price := 1/2, reason := "r", action := "BUY" }

/-- Fixture SELL intent of 15 shares at 3/5. -/
def exSell15 : Trade :=
  { market_id := "m", question := "q", side := "UP", amount := 15,
    price := 3/5, reason := "r", action := "SELL" }

/-- Fixture SELL intent of 10 shares at 3/5. -/
def exSell10 : Trade :=
  { market_id := "m", question := "q", side := "UP", amount := 10,
    price := 3/5, reason := "r", action := "SELL" }

/-- Fixture open position of 10 shares at 1/2 owned by strategy s. -/
def exPos10 : Position :=
  { strategy_name := "s", market_id := "m", question := "q", side := "UP",
    shares := 10, entry_price := 1/2, entry_time := "t0",
    market_close_time := "c" }

/-- Fixture open position of 30 shares at 1/2 owned by strategy s. -/
def exPos30 : Position :=
  { strategy_name := "s", market_id := "m", question := "q", side := "UP",
    shares := 30, entry_price := 1/2, entry_time := "t0",
    market_close_time := "c" }

/-- Fixture strategy that emits the same SELL intent twice in one cycle. -/
def exSellTwiceStrategy : BtcStrategy :=
  { name := "s", enabled := true,
    analyze := fun _ _ =>
      Except.ok [{ trade := exSell10, market := exMarket },
                 { trade := exSell10, market := exMarket }] }

/-- Fixture unresolved paper trade: 10 shares of side A at 0.90. -/
def exPaper : PaperTrade :=
  { trade_id := "m:A:t", market_id := "m", question := "q", side := "A",
    amount := 10, entry_price := 9/10, entry_time := "t", reason := "r",
    volume := 100, market_end_date := "e" }

/-- Fixture ledger holding one resolved winning trade entered at price
1.00, whose stored profit_loss is exactly 0 (the record resolveTrade
produces for such a trade, per claim C6). -/
def exZeroPnlLedger : TradeMap :=
  [("m:A:t",
    { exPaper with
        entry_price := 1, resolved := true, resolution_outcome := some "A",
        exit_price := some 1, profit_loss := some 0 })]

/-- Running sum of the signed shares deltas of an upsert sequence. -/
def sharesSum (ds : List (Int × ℚ)) : Int :=
  (ds.map Prod.fst).sum

/-- A sequence of add_position calls for one fixed
(strategy, market, side) key, each with its own signed shares delta and
price. -/
def applyDeltas (positions : PosMap) (sn mi q sd et ct : String) :
    List (Int × ℚ) → PosMap
  | [] => positions
  | (d, p) :: rest =>
      applyDeltas (addPosition positions sn mi q sd d p et ct) sn mi q sd et ct rest

/-- The net-shares bookkeeping of one key: the key is absent exactly when
the running sum is zero; otherwise the record holds the running sum. -/
def KeyState (positions : PosMap) (key : String) (s : Int) : Prop :=
  (s = 0 ∧ lookupKey positions key = none) ∨
  (s ≠ 0 ∧ ∃ p, lookupKey positions key = some p ∧ p.shares = s)

/-- Position-ledger states reachable from the empty ledger by add_position
calls whose shares delta is nonzero (the only calls the orchestrators
issue, since trade amounts are positive). -/
inductive ReachableNZ : PosMap → Prop where
  | empty : ReachableNZ []
  | step (ps : PosMap) (sn mi q sd et ct : String) (d : Int) (pr : ℚ) :
      ReachableNZ ps → d ≠ 0 → ReachableNZ (addPosition ps sn mi q sd d pr et ct)

/-! Association-list lemmas for the dict embedding. -/

theorem lookupKey_eraseKey_self {α : Type} (m : List (String × α)) (k : String) :
    lookupKey (eraseKey m k) k = none := by
  induction m with
  | nil => rfl
  | cons kv rest ih =>
      rcases kv with ⟨k₁, v₁⟩
      by_cases h : k₁ = k
      · simpa [eraseKey, List.filter_cons, h] using ih
      · simpa [eraseKey, List.filter_cons, h, lookupKey] using ih

theorem lookupKey_updateKey_self {α : Type} (m : List (String × α)) (k : String)
    (v w : α) (h : lookupKey m k = some w) :
    lookupKey (updateKey m k v) k = some v := by
  induction m with
  | nil => simp [lookupKey] at h
  | cons kv rest ih =>
      rcases kv with ⟨k₁, v₁⟩
      by_cases hk : k₁ = k
      · subst hk
        simp only [updateKey, List.map_cons]
        simp [lookupKey]
      · simp only [updateKey, List.map_cons, if_neg hk] at *
        simp only [lookupKey, if_neg hk] at h ⊢
        exact ih h

theorem lookupKey_append_of_none {α : Type} (m l : List (String × α)) (k : String)
    (h : lookupKey m k = none) :
    lookupKey (m ++ l) k = lookupKey l k := by
  induction m with
  | nil => rfl
  | cons kv rest ih =>
      rcases kv with ⟨k₁, v₁⟩
      by_cases hk : k₁ = k
      · simp [lookupKey, hk] at h
      · simp only [lookupKey, hk, if_neg hk, List.cons_append] at h ⊢
        exact ih h

theorem lookupKey_dictSet_self {α : Type} (m : List (String × α)) (k : String)
    (v : α) : lookupKey (dictSet m k v) k = some v := by
  unfold dictSet
  cases h : lookupKey m k with
  | none =>
      simp only [h, Option.isSome_none, Bool.false_eq_true, if_false]
      rw [lookupKey_append_of_none m _ k h]
      simp [lookupKey]
  | some w =>
      simp only [h, Option.isSome_some, if_true]
      exact lookupKey_updateKey_self m k v w h

theorem mem_updateKey {α : Type} {m : List (String × α)} {k : String} {v : α}
    {x : String × α} (hx : x ∈ updateKey m k v) : x ∈ m ∨ x = (k, v) := by
  unfold updateKey at hx
  rcases List.mem_map.mp hx with ⟨y, hy, hxy⟩
  by_cases h : y.1 = k
  · right
    simp only [h, if_true] at hxy
    exact hxy.symm
  · left
    simp only [h, if_false] at hxy
    exact hxy ▸ hy

theorem mem_eraseKey {α : Type} {m : List (String × α)} {k : String}
    {x : String × α} (hx : x ∈ eraseKey m k) : x ∈ m :=
  List.mem_of_mem_filter hx

/-! Case lemmas for add_position. -/

theorem addPosition_of_none (positions : PosMap) (sn mi q sd : String)
    (shares : Int) (price : ℚ) (et ct : String)
    (h : lookupKey positions (positionKey sn mi sd) = none) :
    addPosition positions sn mi q sd shares price et ct =
      positions ++
        [(positionKey sn mi sd,
          { strategy_name := sn, market_id := mi, question := q, side := sd,
            shares := shares, entry_price := price, entry_time := et,
            market_close_time := ct })] := by
  unfold addPosition dictSet
  rw [h]
  simp [h]

theorem addPosition_of_some_zero (positions : PosMap) (sn mi q sd : String)
    (shares : Int) (price : ℚ) (et ct : String) (p : Position)
    (h : lookupKey positions (positionKey sn mi sd) = some p)
    (hz : p.shares + shares = 0) :
    addPosition positions sn mi q sd shares price et ct =
      eraseKey positions (positionKey sn mi sd) := by
  unfold addPosition
  rw [h]
  simp [hz]

theorem addPosition_of_some_nonzero (positions : PosMap) (sn mi q sd : String)
    (shares : Int) (price : ℚ) (et ct : String) (p : Position)
    (h : lookupKey positions (positionKey sn mi sd) = some p)
    (hz : p.shares + shares ≠ 0) :
    addPosition positions sn mi q sd shares price et ct =
      updateKey positions (positionKey sn mi sd)
        { p with
            shares := p.shares + shares,
            entry_price :=
              ((p.shares : ℚ) * p.entry_price + (shares : ℚ) * price) /
                ((p.shares + shares : Int) : ℚ) } := by
  unfold addPosition
  rw [h]
  simp [hz]

/-- C2: an upsert of a signed shares_delta at price_delta onto an existing
position (shares₀, price₀) with shares₀ + shares_delta ≠ 0 leaves exactly
shares = shares₀ + shares_delta and
entry_price = (shares₀*price₀ + shares_delta*price_delta)/(shares₀+shares_delta),
including when shares_delta is negative. The embedding works in ℚ, so the
equality is exact, which implies the claimed 1e-9 tolerance. -/
theorem claim_C2 (positions : PosMap) (sn mi q sd : String) (shares : Int)
    (price : ℚ) (et ct : String) (p₀ : Position)
    (h : lookupKey positions (positionKey sn mi sd) = some p₀)
    (hnz : p₀.shares + shares ≠ 0) :
    lookupKey (addPosition positions sn mi q sd shares price et ct)
        (positionKey sn mi sd) =
      some { p₀ with
              shares := p₀.shares + shares,
              entry_price :=
                ((p₀.shares : ℚ) * p₀.entry_price + (shares : ℚ) * price) /
                  ((p₀.shares + shares : Int) : ℚ) } := by
  rw [addPosition_of_some_nonzero positions sn mi q sd shares price et ct p₀ h hnz]
  exact lookupKey_updateKey_self _ _ _ p₀ h

/-- C2 witness: a SELL of 4 shares at 3/4 against a position of 10 shares
at 1/2 leaves 6 shares at the exact cost-weighted average 1/3. -/
theorem claim_C2_witness :
    lookupKey
        (addPosition
          [(positionKey "s" "m" "UP",
            { strategy_name := "s", market_id := "m", question := "q",
              side := "UP", shares := 10, entry_price := 1/2,
              entry_time := "t0", market_close_time := "c" })]
          "s" "m" "q" "UP" (-4) (3/4) "t1" "c")
        (positionKey "s" "m" "UP") =
      some { strategy_name := "s", market_id := "m", question := "q",
             side := "UP", shares := 6, entry_price := 1/3,
             entry_time := "t0", market_close_time := "c" } := by
  have h := claim_C2
    [(positionKey "s" "m" "UP",
      { strategy_name := "s", market_id := "m", question := "q",
        side := "UP", shares := 10, entry_price := 1/2,
        entry_time := "t0", market_close_time := "c" })]
    "s" "m" "q" "UP" (-4) (3/4) "t1" "c"
    { strategy_name := "s", market_id := "m", question := "q",
      side := "UP", shares := 10, entry_price := 1/2,
      entry_time := "t0", market_close_time := "c" }
    rfl (by decide)
  rw [h]
  norm_num

/-! Net-shares bookkeeping of one key under add_position. -/

theorem keyState_addPosition (ps : PosMap) (sn mi q sd et ct : String)
    (d : Int) (pr : ℚ) (s : Int)
    (hks : KeyState ps (positionKey sn mi sd) s) (hd : d ≠ 0) :
    KeyState (addPosition ps sn mi q sd d pr et ct) (positionKey sn mi sd)
      (s + d) := by
  rcases hks with ⟨hs0, hnone⟩ | ⟨hsne, p, hp, hshares⟩
  · subst hs0
    right
    refine ⟨by simpa using hd, ?_⟩
    rw [addPosition_of_none ps sn mi q sd d pr et ct hnone]
    refine ⟨{ strategy_name := sn, market_id := mi, question := q, side := sd,
              shares := d, entry_price := pr, entry_time := et,
              market_close_time := ct }, ?_, ?_⟩
    · rw [lookupKey_append_of_none _ _ _ hnone]
      simp [lookupKey]
    · simp
  · by_cases hz : p.shares + d = 0
    · left
      refine ⟨by rw [← hshares]; exact hz, ?_⟩
      rw [addPosition_of_some_zero ps sn mi q sd d pr et ct p hp hz]
      exact lookupKey_eraseKey_self _ _
    · right
      refine ⟨by rw [← hshares]; exact hz, ?_⟩
      rw [addPosition_of_some_nonzero ps sn mi q sd d pr et ct p hp hz]
      exact ⟨_, lookupKey_updateKey_self _ _ _ p hp, by simp [hshares]⟩

theorem keyState_applyDeltas (sn mi q sd et ct : String) (ds : List (Int × ℚ)) :
    ∀ (ps : PosMap) (s : Int), (∀ x ∈ ds, x.1 ≠ 0) →
      KeyState ps (positionKey sn mi sd) s →
      KeyState (applyDeltas ps sn mi q sd et ct ds) (positionKey sn mi sd)
        (s + sharesSum ds) := by
  induction ds with
  | nil =>
      intro ps s _ hks
      simpa [applyDeltas, sharesSum] using hks
  | cons x rest ih =>
      rcases x with ⟨d, pr⟩
      intro ps s hall hks
      have h1 := keyState_addPosition ps sn mi q sd et ct d pr s hks
        (hall (d, pr) (by simp))
      have h2 := ih (addPosition ps sn mi q sd d pr et ct) (s + d)
        (fun y hy => hall y (by simp [hy])) h1
      simpa [applyDeltas, sharesSum, add_assoc] using h2

theorem addPosition_preserves_nonzero (ps : PosMap) (sn mi q sd et ct : String)
    (d : Int) (pr : ℚ)
    (hgood : ∀ kp ∈ ps, kp.2.shares ≠ 0) (hd : d ≠ 0) :
    ∀ kp ∈ addPosition ps sn mi q sd d pr et ct, kp.2.shares ≠ 0 := by
  intro kp hkp
  cases hl : lookupKey ps (positionKey sn mi sd) with
  | none =>
      rw [addPosition_of_none ps sn mi q sd d pr et ct hl] at hkp
      rcases List.mem_append.mp hkp with h | h
      · exact hgood kp h
      · have hkp2 := List.mem_singleton.mp h
        rw [hkp2]
        simpa using hd
  | some p =>
      by_cases hz : p.shares + d = 0
      · rw [addPosition_of_some_zero ps sn mi q sd d pr et ct p hl hz] at hkp
        exact hgood kp (mem_eraseKey hkp)
      · rw [addPosition_of_some_nonzero ps sn mi q sd d pr et ct p hl hz] at hkp
        rcases mem_updateKey hkp with h | h
        · exact hgood kp h
        · rw [h]
          simpa using hz

theorem reachableNZ_nonzero (ps : PosMap) (h : ReachableNZ ps) :
    ∀ kp ∈ ps, kp.2.shares ≠ 0 := by
  induction h with
  | empty => intro kp hkp; cases hkp
  | step ps sn mi q sd et ct d pr _ hd ih =>
      exact addPosition_preserves_nonzero ps sn mi q sd et ct d pr ih hd

/-- C3 (amended): restricted to upserts with nonzero shares_delta — the
only kind the orchestrators issue. Starting from a ledger where the key is
absent, any sequence of nonzero-delta upserts for that key whose deltas
sum to zero leaves the key absent; and every ledger state reachable from
empty by nonzero-delta upserts contains only records with shares ≠ 0. The
unamended claim fails because an upsert with shares_delta = 0 on an absent
key creates and retains a record with shares = 0. -/
theorem claim_C3_amended :
    (∀ (ps : PosMap) (sn mi q sd et ct : String) (ds : List (Int × ℚ)),
        lookupKey ps (positionKey sn mi sd) = none →
        (∀ x ∈ ds, x.1 ≠ 0) →
        sharesSum ds = 0 →
        lookupKey (applyDeltas ps sn mi q sd et ct ds)
          (positionKey sn mi sd) = none)
  ∧ (∀ ps : PosMap, ReachableNZ ps → ∀ kp ∈ ps, kp.2.shares ≠ 0) := by
  constructor
  · intro ps sn mi q sd et ct ds h0 hall hsum
    have h := keyState_applyDeltas sn mi q sd et ct ds ps 0 hall
      (Or.inl ⟨rfl, h0⟩)
    rcases h with ⟨_, hnone⟩ | ⟨hne, _⟩
    · exact hnone
    · exact absurd (by simp [hsum]) hne
  · exact reachableNZ_nonzero

/-- C3 counterexample: the single-call upsert sequence with
shares_delta = 0 sums to zero, yet it leaves the position present — and
with shares = 0 — refuting both halves of the claim as stated. -/
theorem claim_C3_counterexample :
    lookupKey (applyDeltas [] "s" "m" "q" "UP" "t" "c" [(0, 1/2)])
        (positionKey "s" "m" "UP") =
      some { strategy_name := "s", market_id := "m", question := "q",
             side := "UP", shares := 0, entry_price := 1/2,
             entry_time := "t", market_close_time := "c" } := by
  rfl

/-- C3 witness: a buy of 2 then a sell of 2 nets to an absent position,
and a one-step reachable ledger's record has nonzero shares. -/
theorem claim_C3_witness :
    (lookupKey (applyDeltas [] "s" "m" "q" "UP" "t" "c" [(2, 1/2), (-2, 3/4)])
        (positionKey "s" "m" "UP") = none)
  ∧ (({ strategy_name := "s", market_id := "m", question := "q",
        side := "UP", shares := 3, entry_price := 1/2, entry_time := "t",
        market_close_time := "c" } : Position).shares ≠ 0) := by
  constructor
  · exact claim_C3_amended.1 [] "s" "m" "q" "UP" "t" "c" [(2, 1/2), (-2, 3/4)]
      rfl (by decide) (by decide)
  · exact claim_C3_amended.2 (addPosition [] "s" "m" "q" "UP" 3 (1/2) "t" "c")
      (ReachableNZ.step [] "s" "m" "q" "UP" "t" "c" 3 (1/2)
        ReachableNZ.empty (by decide))
      (positionKey "s" "m" "UP",
        { strategy_name := "s", market_id := "m", question := "q",
          side := "UP", shares := 3, entry_price := 1/2, entry_time := "t",
          market_close_time := "c" })
      (by rw [addPosition_of_none [] "s" "m" "q" "UP" 3 (1/2) "t" "c" rfl]
          simp)

/-! Dispatch lemmas for BTC15MinBot. -/

theorem btcExecute_runs (dryRun : Bool) (execOk : Trade → Bool)
    (now name : String) (positions : PosMap) (count : Nat) (t : Trade)
    (m : Market) (h : dryRun = true ∨ execOk t = true) :
    btcExecute dryRun execOk now name positions count t m =
      (addPosition positions name t.market_id t.question t.side
        (if t.action = "BUY" then t.amount else -t.amount) t.price now
        m.end_date, count + 1) := by
  rcases h with h | h
  · subst h; rfl
  · cases dryRun
    · simp [btcExecute, h]
    · rfl

theorem btcExecute_fails (execOk : Trade → Bool) (now name : String)
    (positions : PosMap) (count : Nat) (t : Trade) (m : Market)
    (h : execOk t = false) :
    btcExecute false execOk now name positions count t m =
      (positions, count) := by
  simp [btcExecute, h]

/-- C5: a SELL with no matching position is skipped with no ledger change;
a SELL whose amount exceeds the position's shares executes with its amount
clamped to the position's shares — a shares_delta of exactly -shares — and
the position ends exactly closed (deleted). -/
theorem claim_C5 (dryRun : Bool) (execOk : Trade → Bool) (now name : String)
    (positions : PosMap) (count : Nat) (t : Trade) (m : Market)
    (hsell : t.action = "SELL") :
    (getPosition positions name m.id t.side = none →
      btcProcessSignal dryRun execOk now name (positions, count) ⟨t, m⟩ =
        (positions, count))
  ∧ (∀ p : Position, getPosition positions name m.id t.side = some p →
      t.amount > p.shares → t.market_id = m.id →
      (dryRun = true ∨ execOk { t with amount := p.shares } = true) →
      btcProcessSignal dryRun execOk now name (positions, count) ⟨t, m⟩ =
        (addPosition positions name t.market_id t.question t.side (-p.shares)
          t.price now m.end_date, count + 1)
      ∧ getPosition (addPosition positions name t.market_id t.question t.side
          (-p.shares) t.price now m.end_date) name m.id t.side = none) := by
  constructor
  · intro hnone
    simp [btcProcessSignal, hsell, hnone]
  · intro p hsome hgt hmid hrun
    have step : btcProcessSignal dryRun execOk now name (positions, count) ⟨t, m⟩ =
        btcExecute dryRun execOk now name positions count
          { t with amount := p.shares } m := by
      simp [btcProcessSignal, hsell, hsome, hgt]
    have hkey : lookupKey positions (positionKey name t.market_id t.side) =
        some p := by
      have := hsome
      unfold getPosition at this
      rw [hmid]
      exact this
    constructor
    · rw [step, btcExecute_runs dryRun execOk now name positions count _ m hrun]
      simp [hsell]
    · unfold getPosition
      rw [← hmid]
      rw [addPosition_of_some_zero positions name t.market_id t.question t.side
        (-p.shares) t.price now m.end_date p hkey (by ring)]
      exact lookupKey_eraseKey_self _ _

/-- C5 witness: the SELL of 15 against a position of 10 shares executes
with effective amount 10 (shares_delta -10) and removes the record; a
SELL against an empty ledger is skipped. -/
theorem claim_C5_witness :
    (btcProcessSignal true (fun _ => true) "t" "s" ([], 0) ⟨exSell15, exMarket⟩ =
      ([], 0))
  ∧ (btcProcessSignal true (fun _ => true) "t" "s"
        ([(positionKey "s" "m" "UP", exPos10)], 0) ⟨exSell15, exMarket⟩ =
      (addPosition [(positionKey "s" "m" "UP", exPos10)] "s"
        exSell15.market_id exSell15.question exSell15.side (-exPos10.shares)
        exSell15.price "t" exMarket.end_date, 0 + 1))
  ∧ (getPosition
      (addPosition [(positionKey "s" "m" "UP", exPos10)] "s"
        exSell15.market_id exSell15.question exSell15.side (-exPos10.shares)
        exSell15.price "t" exMarket.end_date) "s" exMarket.id exSell15.side =
      none) := by
  refine ⟨?_, ?_, ?_⟩
  · exact (claim_C5 true (fun _ => true) "t" "s" [] 0 exSell15 exMarket rfl).1 rfl
  · exact ((claim_C5 true (fun _ => true) "t" "s"
      [(positionKey "s" "m" "UP", exPos10)] 0 exSell15 exMarket rfl).2 exPos10
      rfl (by decide) rfl (Or.inl rfl)).1
  · exact ((claim_C5 true (fun _ => true) "t" "s"
      [(positionKey "s" "m" "UP", exPos10)] 0 exSell15 exMarket rfl).2 exPos10
      rfl (by decide) rfl (Or.inl rfl)).2

/-! Resolution lemmas for the paper-trade ledger. -/

theorem resolveTrade_of_unresolved (trades : TradeMap) (tid w : String)
    (t : PaperTrade) (h : lookupKey trades tid = some t)
    (hr : t.resolved = false) :
    resolveTrade trades tid w =
      updateKey trades tid
        { t with
            resolved := true,
            resolution_outcome := some w,
            exit_price := some (if t.side = w then 1 else 0),
            profit_loss :=
              some (if t.side = w then
                      1 * (t.amount : ℚ) - t.entry_price * (t.amount : ℚ)
                    else -(t.entry_price * (t.amount : ℚ))) } := by
  unfold resolveTrade
  rw [h]
  simp [hr, calculatePnl]

/-- C6: resolving an unresolved paper trade stores exactly
profit_loss = payout - entry_price*amount, where the payout is 1.00 per
share when the trade's side equals the winning side and 0 otherwise, and
marks it resolved with the matching exit price. -/
theorem claim_C6 (trades : TradeMap) (tid w : String) (t : PaperTrade)
    (h : lookupKey trades tid = some t) (hr : t.resolved = false) :
    lookupKey (resolveTrade trades tid w) tid =
      some { t with
              resolved := true,
              resolution_outcome := some w,
              exit_price := some (if t.side = w then 1 else 0),
              profit_loss :=
                some ((if t.side = w then (t.amount : ℚ) else 0) -
                  t.entry_price * (t.amount : ℚ)) } := by
  have hpl : (if t.side = w then
                1 * (t.amount : ℚ) - t.entry_price * (t.amount : ℚ)
              else -(t.entry_price * (t.amount : ℚ))) =
      (if t.side = w then (t.amount : ℚ) else 0) -
        t.entry_price * (t.amount : ℚ) := by
    split <;> ring
  rw [resolveTrade_of_unresolved trades tid w t h hr, hpl]
  exact lookupKey_updateKey_self trades tid _ t h

/-- C6 witness: the 10-share side-A trade at 0.90 resolves to
profit_loss 1.00 when A wins and -9.00 when B wins. -/
theorem claim_C6_witness :
    (lookupKey (resolveTrade [("m:A:t", exPaper)] "m:A:t" "A") "m:A:t" =
      some { exPaper with
              resolved := true, resolution_outcome := some "A",
              exit_price := some 1, profit_loss := some 1 })
  ∧ (lookupKey (resolveTrade [("m:A:t", exPaper)] "m:A:t" "B") "m:A:t" =
      some { exPaper with
              resolved := true, resolution_outcome := some "B",
              exit_price := some 0, profit_loss := some (-9) }) := by
  constructor
  · have h := claim_C6 [("m:A:t", exPaper)] "m:A:t" "A" exPaper rfl rfl
    rw [h]
    norm_num [exPaper]
  · have h := claim_C6 [("m:A:t", exPaper)] "m:A:t" "B" exPaper rfl rfl
    have hAB : ("A" : String) ≠ "B" := by decide
    rw [h]
    norm_num [exPaper, hAB]

/-- C7: resolve is a no-op on an unknown trade id and on an already
resolved trade; in particular resolving the same id with the same outcome
twice equals resolving it once. -/
theorem claim_C7 (trades : TradeMap) (tid w : String) :
    (lookupKey trades tid = none → resolveTrade trades tid w = trades)
  ∧ (∀ t : PaperTrade, lookupKey trades tid = some t → t.resolved = true →
      resolveTrade trades tid w = trades)
  ∧ resolveTrade (resolveTrade trades tid w) tid w =
      resolveTrade trades tid w := by
  refine ⟨?_, ?_, ?_⟩
  · intro h
    unfold resolveTrade
    rw [h]
  · intro t h hr
    unfold resolveTrade
    rw [h]
    simp [hr]
  · cases h : lookupKey trades tid with
    | none =>
        have h1 : resolveTrade trades tid w = trades := by
          unfold resolveTrade; rw [h]
        rw [h1]
        exact h1
    | some t =>
        by_cases hr : t.resolved = true
        · have h1 : resolveTrade trades tid w = trades := by
            unfold resolveTrade; rw [h]; simp [hr]
          rw [h1]
          exact h1
        · have hr' : t.resolved = false := by simpa using hr
          have h2 := lookupKey_updateKey_self trades tid
            ({ t with
                resolved := true,
                resolution_outcome := some w,
                exit_price := some (if t.side = w then 1 else 0),
                profit_loss :=
                  some (if t.side = w then
                          1 * (t.amount : ℚ) - t.entry_price * (t.amount : ℚ)
                        else -(t.entry_price * (t.amount : ℚ))) }) t h
          rw [resolveTrade_of_unresolved trades tid w t h hr']
          unfold resolveTrade
          rw [h2]
          simp

/-- C7 witness: unknown-id no-op, already-resolved no-op, and idempotent
double resolution, each at a concrete ledger. -/
theorem claim_C7_witness :
    (resolveTrade [] "nope" "A" = [])
  ∧ (resolveTrade [("m:A:t", { exPaper with resolved := true })] "m:A:t" "A" =
      [("m:A:t", { exPaper with resolved := true })])
  ∧ (resolveTrade (resolveTrade [("m:A:t", exPaper)] "m:A:t" "A") "m:A:t" "A" =
      resolveTrade [("m:A:t", exPaper)] "m:A:t" "A") := by
  refine ⟨?_, ?_, ?_⟩
  · exact (claim_C7 [] "nope" "A").1 rfl
  · exact (claim_C7 [("m:A:t", { exPaper with resolved := true })] "m:A:t"
      "A").2.1 { exPaper with resolved := true } rfl rfl
  · exact (claim_C7 [("m:A:t", exPaper)] "m:A:t" "A").2.2

/-! Statistics lemmas. -/

theorem sum_map_filter_resolved (l : List PaperTrade) (f : PaperTrade → ℚ) :
    ((l.filter (fun t => t.resolved)).map f).sum +
      ((l.filter (fun t => !t.resolved)).map f).sum = (l.map f).sum := by
  induction l with
  | nil => simp
  | cons t rest ih =>
      by_cases h : t.resolved = true
      · simp [List.filter_cons, h, ← ih]
        ring
      · simp [List.filter_cons, h, ← ih]
        ring

/-- C9: total_invested sums entry_price*amount over all records, resolved
and pending alike; win_rate and roi are 0 whenever their denominators are
zero, in particular when no trade is resolved while pending trades
exist. -/
theorem claim_C9 (trades : TradeMap) :
    ((getStats trades).total_invested =
        ((resolvedTrades trades).map
          (fun t => t.entry_price * (t.amount : ℚ))).sum +
        ((pendingTrades trades).map
          (fun t => t.entry_price * (t.amount : ℚ))).sum)
  ∧ (resolvedTrades trades = [] →
      (getStats trades).win_rate = 0 ∧ (getStats trades).roi = 0)
  ∧ ((getStats trades).total_invested = 0 → (getStats trades).roi = 0)
  ∧ (resolvedTrades trades = [] → pendingTrades trades ≠ [] →
      (getStats trades).win_rate = 0 ∧ (getStats trades).roi = 0) := by
  have hsplit := sum_map_filter_resolved (trades.map Prod.snd)
    (fun t => t.entry_price * (t.amount : ℚ))
  have hzero : ∀ h : resolvedTrades trades = [],
      (getStats trades).win_rate = 0 ∧ (getStats trades).roi = 0 := by
    intro h
    constructor
    · simp [getStats, h]
    · simp [getStats, winningTrades, losingTrades, h]
  refine ⟨?_, hzero, ?_, fun h _ => hzero h⟩
  · simp only [getStats, resolvedTrades, pendingTrades] at *
    exact hsplit.symm
  · intro h
    simp only [getStats] at h ⊢
    rw [h]
    norm_num

/-- C9 witness: a ledger with one pending and no resolved trade has
win_rate 0 and roi 0, with no division error. -/
theorem claim_C9_witness :
    (getStats [("m:A:t", exPaper)]).win_rate = 0 ∧
      (getStats [("m:A:t", exPaper)]).roi = 0 :=
  (claim_C9 [("m:A:t", exPaper)]).2.2.2 rfl
    (by simp [pendingTrades, exPaper])

/-- C10: a resolved trade whose profit_loss is exactly 0 is counted in
neither winning_trades nor losing_trades, because both filters test the
Python truthiness of profit_loss first; on the fixture ledger with one
such trade, winning_trades + losing_trades is strictly below
resolved_trades. -/
theorem claim_C10 :
    (∀ (trades : TradeMap) (t : PaperTrade), t ∈ resolvedTrades trades →
        t.profit_loss = some 0 →
        t ∉ winningTrades trades ∧ t ∉ losingTrades trades)
  ∧ (getStats exZeroPnlLedger).winning_trades +
      (getStats exZeroPnlLedger).losing_trades <
      (getStats exZeroPnlLedger).resolved_trades := by
  constructor
  · intro trades t _ hpl
    constructor
    · intro hmem
      have hw := (List.mem_filter.mp hmem).2
      simp [isWinningTrade, optTruthy, hpl] at hw
    · intro hmem
      have hw := (List.mem_filter.mp hmem).2
      simp [isLosingTrade, optTruthy, hpl] at hw
  · have hw : (getStats exZeroPnlLedger).winning_trades = 0 := rfl
    have hl : (getStats exZeroPnlLedger).losing_trades = 0 := rfl
    have hr : (getStats exZeroPnlLedger).resolved_trades = 1 := rfl
    rw [hw, hl, hr]
    norm_num

/-- C10 witness: the concrete zero-profit resolved trade of the fixture
ledger is in neither filter. -/
theorem claim_C10_witness :
    ({ exPaper with
        entry_price := 1, resolved := true, resolution_outcome := some "A",
        exit_price := some 1, profit_loss := some 0 } ∉
      winningTrades exZeroPnlLedger)
  ∧ ({ exPaper with
        entry_price := 1, resolved := true, resolution_outcome := some "A",
        exit_price := some 1, profit_loss := some 0 } ∉
      losingTrades exZeroPnlLedger) :=
  claim_C10.1 exZeroPnlLedger
    { exPaper with
        entry_price := 1, resolved := true, resolution_outcome := some "A",
        exit_price := some 1, profit_loss := some 0 }
    (by rw [show resolvedTrades exZeroPnlLedger =
          [{ exPaper with
              entry_price := 1, resolved := true,
              resolution_outcome := some "A", exit_price := some 1,
              profit_loss := some 0 }] from rfl]
        exact List.mem_singleton.mpr rfl)
    rfl

/-! Strategy isolation and exception containment. -/

theorem getStrategyPositions_owner (positions : PosMap) (name : String)
    (p : Position) (hp : p ∈ getStrategyPositions positions name) :
    p.strategy_name = name := by
  have h := (List.mem_filter.mp hp).2
  simpa using h

theorem btcRunStrategy_error (dryRun : Bool) (execOk : Trade → Bool)
    (now : String) (markets : List Market) (e : String) (s : BtcStrategy)
    (h : ∀ pl, s.analyze markets pl = Except.error e) (st : PosMap × Nat) :
    btcRunStrategy dryRun execOk now markets st s = st := by
  unfold btcRunStrategy
  rw [h (getStrategyPositions st.1 s.name)]
  simp

/-- C8: a strategy is handed exactly its own positions — every position in
the list passed to analyze by the BTC cycle carries that strategy's name —
and a strategy whose analyze raises changes nothing and does not stop the
remaining strategies, in the BTC cycle and in the TradingBot signal
collection alike. -/
theorem claim_C8 :
    (∀ (positions : PosMap) (name : String) (p : Position),
        p ∈ getStrategyPositions positions name → p.strategy_name = name)
  ∧ (∀ (dryRun : Bool) (execOk : Trade → Bool) (now : String)
        (markets : List Market) (positions : PosMap) (e : String)
        (s : BtcStrategy) (pre post : List BtcStrategy),
        (∀ pl, s.analyze markets pl = Except.error e) →
        btcRunCycle dryRun execOk now markets positions (pre ++ s :: post) =
          btcRunCycle dryRun execOk now markets positions (pre ++ post))
  ∧ (∀ (markets : List Market) (e : String) (s : TbStrategy)
        (pre post : List TbStrategy),
        s.analyze markets = Except.error e →
        tbCollectSignals (pre ++ s :: post) markets =
          tbCollectSignals (pre ++ post) markets) := by
  refine ⟨getStrategyPositions_owner, ?_, ?_⟩
  · intro dryRun execOk now markets positions e s pre post h
    unfold btcRunCycle
    rw [List.foldl_append, List.foldl_append, List.foldl_cons,
      btcRunStrategy_error dryRun execOk now markets e s h]
  · intro markets e s pre post h
    unfold tbCollectSignals
    rw [List.foldl_append, List.foldl_append, List.foldl_cons]
    congr 1
    rw [h]
    simp

/-- C8 witness: the filtered position list of strategy s on a concrete
ledger contains only s-owned records, and concrete always-raising
strategies leave the BTC cycle state and the TradingBot signal list
exactly as without them. -/
theorem claim_C8_witness :
    (exPos10.strategy_name = "s")
  ∧ (btcRunCycle true (fun _ => true) "t" [exMarket] []
        ([] ++ { name := "f", enabled := true,
                 analyze := fun _ _ => Except.error "boom" } ::
          [exSellTwiceStrategy]) =
      btcRunCycle true (fun _ => true) "t" [exMarket] []
        ([] ++ [exSellTwiceStrategy]))
  ∧ (tbCollectSignals
        ([] ++ { name := "f", enabled := true,
                 analyze := fun _ => Except.error "boom" } ::
          ([] : List TbStrategy)) [exMarket] =
      tbCollectSignals ([] ++ ([] : List TbStrategy)) [exMarket]) := by
  refine ⟨?_, ?_, ?_⟩
  · exact claim_C8.1 [(positionKey "s" "m" "UP", exPos10)] "s" exPos10
      (by rw [show getStrategyPositions [(positionKey "s" "m" "UP", exPos10)]
            "s" = [exPos10] from rfl]
          exact List.mem_singleton.mpr rfl)
  · exact claim_C8.2.1 true (fun _ => true) "t" [exMarket] [] "boom"
      { name := "f", enabled := true,
        analyze := fun _ _ => Except.error "boom" }
      [] [exSellTwiceStrategy] (fun _ => rfl)
  · exact claim_C8.2.2 [exMarket] "boom"
      { name := "f", enabled := true,
        analyze := fun _ => Except.error "boom" }
      [] [] rfl

/-! Dispatch effects on the two persisted ledgers. -/

/-- C1 (amended): in dry-run mode a dispatched intent is recorded into the
Paper Trade Ledger by the TradingBot orchestrator — which updates no
Position Ledger — while the BTC15MinBot orchestrator updates the Position
Ledger (BUY: shares_delta = +amount, SELL: shares_delta = -amount) but
records nothing into the Paper Trade Ledger; in live mode the BTC15MinBot
updates the Position Ledger identically on a successful submission and
updates no ledger on a failed one, and the TradingBot updates no ledger in
live mode at all. -/
theorem claim_C1_amended :
    (∀ (execOk : Trade → Bool) (st : TbState) (sig : TradeSignal),
        tradeKey sig.trade ∉ st.executed_trades →
        (tbProcessSignal true execOk st sig).paper_trades =
            (addTrade st.paper_trades sig.trade sig.market.end_date
              sig.market.volume (toString st.clock)).1
          ∧ (tbProcessSignal true execOk st sig).positions = st.positions
          ∧ (tbProcessSignal true execOk st sig).count = st.count + 1)
  ∧ (∀ (execOk : Trade → Bool) (st : TbState) (sig : TradeSignal),
        (tbProcessSignal false execOk st sig).positions = st.positions
      ∧ (tbProcessSignal false execOk st sig).paper_trades = st.paper_trades)
  ∧ (∀ (dryRun : Bool) (execOk : Trade → Bool) (now name : String)
        (st : Ledgers × Nat) (sig : TradeSignal),
        (btcProcessSignalLedgers dryRun execOk now name st sig).1.paper_trades =
          st.1.paper_trades)
  ∧ (∀ (dryRun : Bool) (execOk : Trade → Bool) (now name : String)
        (positions : PosMap) (count : Nat) (t : Trade) (m : Market),
        (dryRun = true ∨ execOk t = true) →
        btcExecute dryRun execOk now name positions count t m =
          (addPosition positions name t.market_id t.question t.side
            (if t.action = "BUY" then t.amount else -t.amount) t.price now
            m.end_date, count + 1))
  ∧ (∀ (execOk : Trade → Bool) (now name : String) (positions : PosMap)
        (count : Nat) (t : Trade) (m : Market), execOk t = false →
        btcExecute false execOk now name positions count t m =
          (positions, count)) := by
  refine ⟨?_, ?_, ?_, btcExecute_runs, btcExecute_fails⟩
  · intro execOk st sig hkey
    unfold tbProcessSignal tbStep
    simp [hkey]
  · intro execOk st sig
    unfold tbProcessSignal tbStep
    by_cases hkey : tradeKey sig.trade ∈ st.executed_trades
    · simp [hkey]
    · by_cases hok : execOk sig.trade = true
      · simp [hkey, hok]
      · simp [hkey, hok]
  · intro dryRun execOk now name st sig
    rfl

/-- C1 counterexample: dispatching a concrete validated BUY in dry-run
mode through the TradingBot leaves the Position Ledger empty (so no
shares_delta is applied anywhere), and dispatching it through the
BTC15MinBot leaves the Paper Trade Ledger empty (so nothing is recorded
there) — the claim requires both effects of whichever orchestrator
dispatches. -/
theorem claim_C1_counterexample :
    ((tbProcessSignal true (fun _ => true) tbInit
        { trade := exBuy10, market := exMarket }).count = 1)
  ∧ ((tbProcessSignal true (fun _ => true) tbInit
        { trade := exBuy10, market := exMarket }).paper_trades =
      [(paperTradeId "m" "UP" "0",
        { trade_id := paperTradeId "m" "UP" "0", market_id := "m",
          question := "q", side := "UP", amount := 10, entry_price := 1/2,
          entry_time := "0", reason := "r", volume := 100,
          market_end_date := "e" })])
  ∧ ((tbProcessSignal true (fun _ => true) tbInit
        { trade := exBuy10, market := exMarket }).positions = [])
  ∧ ((btcProcessSignalLedgers true (fun _ => true) "t" "s"
        ({ positions := [], paper_trades := [] }, 0)
        { trade := exBuy10, market := exMarket }).2 = 1)
  ∧ ((btcProcessSignalLedgers true (fun _ => true) "t" "s"
        ({ positions := [], paper_trades := [] }, 0)
        { trade := exBuy10, market := exMarket }).1.positions =
      [(positionKey "s" "m" "UP",
        { strategy_name := "s", market_id := "m", question := "q",
          side := "UP", shares := 10, entry_price := 1/2, entry_time := "t",
          market_close_time := "e" })])
  ∧ ((btcProcessSignalLedgers true (fun _ => true) "t" "s"
        ({ positions := [], paper_trades := [] }, 0)
        { trade := exBuy10, market := exMarket }).1.paper_trades = []) := by
  refine ⟨rfl, rfl, rfl, rfl, rfl, rfl⟩

/-- C1 witness: the amended dispatch effects at a concrete BUY intent. -/
theorem claim_C1_amended_witness :
    ((tbProcessSignal true (fun _ => true) tbInit
        { trade := exBuy10, market := exMarket }).positions = tbInit.positions)
  ∧ (btcExecute true (fun _ => true) "t" "s" [] 0 exBuy10 exMarket =
      (addPosition [] "s" exBuy10.market_id exBuy10.question exBuy10.side
        (if exBuy10.action = "BUY" then exBuy10.amount else -exBuy10.amount)
        exBuy10.price "t" exMarket.end_date, 0 + 1))
  ∧ (btcExecute false (fun _ => false) "t" "s" [] 0 exBuy10 exMarket =
      ([], 0)) := by
  refine ⟨?_, ?_, ?_⟩
  · exact (claim_C1_amended.1 (fun _ => true) tbInit
      { trade := exBuy10, market := exMarket } (by simp [tbInit])).2.1
  · exact claim_C1_amended.2.2.2.1 true (fun _ => true) "t" "s" [] 0 exBuy10
      exMarket (Or.inl rfl)
  · exact claim_C1_amended.2.2.2.2 (fun _ => false) "t" "s" [] 0 exBuy10
      exMarket rfl

/-! Duplicate suppression in the TradingBot execution loop. -/

theorem tbStep_mono (dryRun : Bool) (execOk : Trade → Bool) (st : TbState)
    (sig : TradeSignal) (k : String) (h : k ∈ st.executed_trades) :
    k ∈ (tbStep dryRun execOk st sig).1.executed_trades := by
  by_cases h1 : tradeKey sig.trade ∈ st.executed_trades
  · simp [tbStep, h1, h]
  · by_cases h2 : dryRun = true
    · simp [tbStep, h1, h2, h]
    · by_cases h3 : execOk sig.trade = true
      · simp [tbStep, h1, h2, h3, h]
      · simp [tbStep, h1, h2, h3, h]

theorem tbStep_exec_not_mem (dryRun : Bool) (execOk : Trade → Bool)
    (st : TbState) (sig : TradeSignal)
    (h : (tbStep dryRun execOk st sig).2 = true) :
    tradeKey sig.trade ∉ st.executed_trades := by
  intro hmem
  simp [tbStep, hmem] at h

theorem tbStep_exec_mem (dryRun : Bool) (execOk : Trade → Bool)
    (st : TbState) (sig : TradeSignal)
    (h : (tbStep dryRun execOk st sig).2 = true) :
    tradeKey sig.trade ∈ (tbStep dryRun execOk st sig).1.executed_trades := by
  by_cases h1 : tradeKey sig.trade ∈ st.executed_trades
  · simp [tbStep, h1] at h
  · by_cases h2 : dryRun = true
    · simp [tbStep, h1, h2]
    · by_cases h3 : execOk sig.trade = true
      · simp [tbStep, h1, h2, h3]
      · simp [tbStep, h1, h2, h3] at h

theorem tradeKey_of_triple (t : Trade) (mkt sd : String) (amt : Int)
    (h : (t.market_id, t.side, t.amount) = (mkt, sd, amt)) :
    tradeKey t = mkt ++ ":" ++ sd ++ ":" ++ toString amt := by
  have e1 : t.market_id = mkt := congrArg Prod.fst h
  have e2 : t.side = sd := congrArg (fun x => x.2.1) h
  have e3 : t.amount = amt := congrArg (fun x => x.2.2) h
  simp [tradeKey, e1, e2, e3]

theorem tbExecTriples_count_zero (dryRun : Bool) (execOk : Trade → Bool)
    (mkt sd : String) (amt : Int) :
    ∀ (sigs : List TradeSignal) (st : TbState),
      (mkt ++ ":" ++ sd ++ ":" ++ toString amt) ∈ st.executed_trades →
      List.count (mkt, sd, amt) (tbExecTriples dryRun execOk st sigs) = 0 := by
  intro sigs
  induction sigs with
  | nil => intro st _; simp [tbExecTriples]
  | cons sig rest ih =>
      intro st h
      by_cases hex : (tbStep dryRun execOk st sig).2 = true
      · have hne : (sig.trade.market_id, sig.trade.side, sig.trade.amount) ≠
            (mkt, sd, amt) := by
          intro heq
          exact tbStep_exec_not_mem dryRun execOk st sig hex
            (tradeKey_of_triple sig.trade mkt sd amt heq ▸ h)
        simp only [tbExecTriples, hex, if_true, List.count_append]
        rw [ih (tbStep dryRun execOk st sig).1
          (tbStep_mono dryRun execOk st sig _ h)]
        simp [List.count_cons, hne]
      · simp only [tbExecTriples, hex, if_false, Bool.false_eq_true,
          List.nil_append]
        exact ih (tbStep dryRun execOk st sig).1
          (tbStep_mono dryRun execOk st sig _ h)

theorem tbExecTriples_count_le_one (dryRun : Bool) (execOk : Trade → Bool)
    (mkt sd : String) (amt : Int) :
    ∀ (sigs : List TradeSignal) (st : TbState),
      List.count (mkt, sd, amt) (tbExecTriples dryRun execOk st sigs) ≤ 1 := by
  intro sigs
  induction sigs with
  | nil => intro st; simp [tbExecTriples]
  | cons sig rest ih =>
      intro st
      by_cases hex : (tbStep dryRun execOk st sig).2 = true
      · by_cases htr : (sig.trade.market_id, sig.trade.side, sig.trade.amount)
            = (mkt, sd, amt)
        · have hkey : (mkt ++ ":" ++ sd ++ ":" ++ toString amt) ∈
              (tbStep dryRun execOk st sig).1.executed_trades :=
            tradeKey_of_triple sig.trade mkt sd amt htr ▸
              tbStep_exec_mem dryRun execOk st sig hex
          simp only [tbExecTriples, hex, if_true, List.count_append]
          rw [tbExecTriples_count_zero dryRun execOk mkt sd amt rest
            (tbStep dryRun execOk st sig).1 hkey]
          simp [List.count_cons, htr]
        · simp only [tbExecTriples, hex, if_true, List.count_append]
          have h0 : List.count (mkt, sd, amt)
              [(sig.trade.market_id, sig.trade.side, sig.trade.amount)] = 0 := by
            simp [List.count_cons, htr]
          rw [h0]
          simpa using ih (tbStep dryRun execOk st sig).1
      · simp only [tbExecTriples, hex, if_false, Bool.false_eq_true,
          List.nil_append]
        exact ih (tbStep dryRun execOk st sig).1

/-- C4 (amended): within one process lifetime of the TradingBot
orchestrator — whose cumulative executed_trades set survives across
cycles — at most one signal with any given (market_id, side, amount)
triple is ever executed, across any sequence of dispatched signals
starting from a fresh process state. The BTC15MinBot orchestrator keeps
no such set and can execute identical intents repeatedly. -/
theorem claim_C4_amended (dryRun : Bool) (execOk : Trade → Bool)
    (sigs : List TradeSignal) (mkt sd : String) (amt : Int) :
    List.count (mkt, sd, amt) (tbExecTriples dryRun execOk tbInit sigs) ≤ 1 :=
  tbExecTriples_count_le_one dryRun execOk mkt sd amt sigs tbInit

/-- C4 counterexample: in one BTC15MinBot cycle a strategy emitting the
same (market, side, amount) SELL twice against a 30-share position gets
both executed — two ledger mutations — leaving 10 shares, where the claim
allows at most one execution of identical triples. -/
theorem claim_C4_counterexample :
    ((btcRunCycle true (fun _ => true) "t" [exMarket]
        [(positionKey "s" "m" "UP", exPos30)] [exSellTwiceStrategy]).2 = 2)
  ∧ ((lookupKey (btcRunCycle true (fun _ => true) "t" [exMarket]
        [(positionKey "s" "m" "UP", exPos30)] [exSellTwiceStrategy]).1
        (positionKey "s" "m" "UP")).map Position.shares = some 10) := by
  exact ⟨rfl, rfl⟩

end Polymarket
